import Mathlib

/-!
Verification of the retopology-contours engine (`src/__init__.py`) against its
natural-language specification.

The development shallowly embeds the parts of the operator
`CGCOOKIE_OT_retopo_contour` that the claims are about:

* the data model (`Cut`, `Path`, operator state) — `ContourCutLine` and
  `ContourCutSeries` live in `contour_classes`, which is not part of the
  repository snapshot, so their fields are modelled from the spec (§3) and
  from the way `__init__.py` uses them;
* the snapshot manager: `create_undo_snapshot` (lines 1728-1753) and
  `undo_action` (lines 1756-1762), with the module-global
  `contour_undo_cache` made an explicit argument;
* the cut-placement handler `release_place_cut` (lines 890-968), the guide
  stroke handler (lines 1701-1723) with `new_path_from_draw`
  (lines 833-873), and the RING_SEGMENTS event handler (lines 1350-1383);
* a heap model of `copy.deepcopy` for the snapshot-isolation property.

Geometry is modelled over `ℚ` (floating point is not statable; all claims
under consideration are about list structure, counts and rational shift
arithmetic, not float rounding).  Euclidean comparisons are expressed via
squared distances, which keeps them rational and order-equivalent.
-/

namespace Contours

/-- 3D point (Blender `Vector`), modelled over `ℚ`. -/
abbrev V3 : Type := ℚ × ℚ × ℚ

/-- 2D screen point. -/
abbrev Pt2 : Type := ℚ × ℚ

/-- Componentwise sum of two 3D points. -/
def vadd (a b : V3) : V3 := (a.1 + b.1, a.2.1 + b.2.1, a.2.2 + b.2.2)

/-- Componentwise difference of two 3D points. -/
def vsub (a b : V3) : V3 := (a.1 - b.1, a.2.1 - b.2.1, a.2.2 - b.2.2)

/-- Scalar multiple of a 3D point. -/
def vsmul (q : ℚ) (a : V3) : V3 := (q * a.1, q * a.2.1, q * a.2.2)

/-- Sum of a list of 3D points. -/
def vsum (vs : List V3) : V3 := vs.foldr vadd (0, 0, 0)

/-- Squared Euclidean distance (kept squared so it stays rational). -/
def sqdist (a b : V3) : ℚ :=
  (a.1 - b.1) ^ 2 + (a.2.1 - b.2.1) ^ 2 + (a.2.2 - b.2.2) ^ 2

/-- Center of mass of a list of points (`0` for the empty list). -/
def centroid (vs : List V3) : V3 :=
  if vs.length = 0 then (0, 0, 0) else vsmul (1 / (vs.length : ℚ)) (vsum vs)

/-- A single cross-section loop (`ContourCutLine` from `contour_classes`,
fields modelled from the spec §3 and from how `__init__.py` reads and
writes them): screen-space head/tail of the drawn line, the raw intersection
polyline `verts`, the resampled polyline `verts_simple`, the fractional seam
rotation `shift`, the cutting-plane data, and a selection flag. -/
structure Cut where
  head : Option Pt2 := none
  tail : Option Pt2 := none
  verts : List V3 := []
  verts_simple : List V3 := []
  shift : ℚ := 0
  plane_com : V3 := (0, 0, 0)
  plane_no : V3 := (0, 0, 1)
  select : Bool := false
deriving DecidableEq, Repr, Inhabited

/-- A cut series (`ContourCutSeries` from `contour_classes`, fields modelled
from the spec §3): the ordered cuts, the desired segment counts, the two lock
flags, a selection flag, the generated bridge faces (as
(cut index, vertex index) references) and the per-vertex visibility masks
(presentation state, kept at path level). -/
structure Path where
  cuts : List Cut := []
  segments : ℤ := 0
  ring_segments : ℤ := 0
  seg_lock : Bool := false
  ring_lock : Bool := false
  select : Bool := false
  faces : List (List (ℕ × ℕ)) := []
  vis_mask : List (List Bool) := []
deriving DecidableEq, Repr, Inhabited

/-- The operator fields of `CGCOOKIE_OT_retopo_contour` that the embedded
handlers touch.  `selected_path` and `selected` are Python references; the
selected path is modelled by its index in `cut_paths`, the selected cut line
by its value (and, inside `release_place_cut`, by its index in `cut_lines`,
which is how the aliasing through `self.selected` is resolved). -/
structure ContourOp where
  cut_paths : List Path := []
  cut_lines : List Cut := []
  selected : Option Cut := none
  selected_path : Option ℕ := none
  draw_cache : List Pt2 := []
  force_new : Bool := false
  snap : Option (ℕ × ℕ) := none
  segments : ℤ := 0
  mode : String := "LOOP"
  modal_state : String := "WAITING"
deriving DecidableEq, Repr, Inhabited

/-- Modelled from the spec: `ContourStatePreserver` (`contour_classes`, not in
`src/`) records the "minimal operator state (selection, mode)" stored next to
the deep-copied Topology Graph in a snapshot. -/
structure ContourStatePreserver where
  selected : Option Cut := none
  selected_path : Option ℕ := none
  mode : String := "LOOP"
  modal_state : String := "WAITING"
deriving DecidableEq, Repr, Inhabited

/-- Modelled from the spec: building a `ContourStatePreserver` from the live
operator (`ContourStatePreserver(self)` at line 1749). -/
def ContourStatePreserver.ofOp (op : ContourOp) : ContourStatePreserver :=
  { selected := op.selected
    selected_path := op.selected_path
    mode := op.mode
    modal_state := op.modal_state }

/-- Modelled from the spec: `ContourStatePreserver.push_state` (called at line
1762) restores the recorded selection/mode onto the live operator. -/
def ContourStatePreserver.push_state (s : ContourStatePreserver) (op : ContourOp) : ContourOp :=
  { op with
    selected := s.selected
    selected_path := s.selected_path
    mode := s.mode
    modal_state := s.modal_state }

/-- One entry of `contour_undo_cache`: `(cut_data, state, action)`
(line 1750). -/
abbrev UndoEntry : Type := List Path × ContourStatePreserver × String

/-- The module-global `contour_undo_cache` (line 64), bottom of the stack at
the head of the list, top (`[-1]`) at the end, matching Python
`append`/`pop()`/`pop(0)`. -/
abbrev UndoCache : Type := List UndoEntry

/-- The coalescible action labels (line 1739). -/
def repeated_actions : List String :=
  ["LOOP_SHIFT", "PATH_SHIFT", "PATH_SEGMENTS", "LOOP_SEGMENTS"]

/-- The entry pushed by a snapshot: the (deep-copied, hence in value semantics
simply the current) `cut_paths`, the preserved operator state, and the action
label (lines 1747-1750). -/
def snapshot_entry (op : ContourOp) (action : String) : UndoEntry :=
  (op.cut_paths, ContourStatePreserver.ofOp op, action)

/-- The unconditional push half of `create_undo_snapshot` (lines 1746-1753):
append the entry, then `pop(0)` when the length exceeds
`settings.undo_depth`. -/
def push_snapshot (op : ContourOp) (cache : UndoCache) (undo_depth : ℕ)
    (action : String) : UndoCache :=
  let cache' := cache ++ [snapshot_entry op action]
  if undo_depth < cache'.length then cache'.tail else cache'

/-- `create_undo_snapshot` (lines 1728-1753).  For a coalescible action the
code reads `contour_undo_cache[-1]` with no emptiness guard, so on an empty
cache that branch raises `IndexError`; fallible behaviour is embedded as
`Except`. -/
def create_undo_snapshot (op : ContourOp) (cache : UndoCache) (undo_depth : ℕ)
    (action : String) : Except String UndoCache :=
  if action ∈ repeated_actions then
    match cache.getLast? with
    | none => .error "IndexError: list index out of range"
    | some e =>
      if action = e.2.2 then .ok cache
      else .ok (push_snapshot op cache undo_depth action)
  else .ok (push_snapshot op cache undo_depth action)

/-- `undo_action` (lines 1756-1762): pop the top entry, install the stored
`cut_paths`, and `push_state` the stored operator state; no-op on an empty
cache. -/
def undo_action (op : ContourOp) (cache : UndoCache) : ContourOp × UndoCache :=
  match cache.getLast? with
  | none => (op, cache)
  | some e => (e.2.1.push_state { op with cut_paths := e.1 }, cache.dropLast)

/-- Iterated `undo_action` (pressing ctrl-Z `n` times, line 1123-1125). -/
def undo_iter : ℕ → ContourOp × UndoCache → ContourOp × UndoCache
  | 0, s => s
  | n + 1, s => undo_iter n (undo_action s.1 s.2)

/-- A mutating user action: its undo label and its effect on the operator. -/
abbrev MutOp : Type := String × (ContourOp → ContourOp)

/-- A sequence of mutating operations, each preceded by its
`create_undo_snapshot` call, exactly as every mutating branch of `modal`
does (e.g. lines 1287, 1320, 1339). -/
def run_ops (depth : ℕ) : List MutOp → ContourOp → UndoCache →
    Except String (ContourOp × UndoCache)
  | [], op, cache => .ok (op, cache)
  | (a, f) :: rest, op, cache =>
    match create_undo_snapshot op cache depth a with
    | .error e => .error e
    | .ok cache' => run_ops depth rest (f op) cache'

/-- The snapshot at this point actually pushes an entry: the label is either
not coalescible, or differs from the label on the (present) top entry. -/
def pushes (cache : UndoCache) (action : String) : Prop :=
  action ∈ repeated_actions → ∃ e, cache.getLast? = some e ∧ action ≠ e.2.2

/-- Every snapshot taken while running the operation sequence pushes an
entry (no coalescing, no empty-stack error). -/
def AllPush (depth : ℕ) : List MutOp → ContourOp → UndoCache → Prop
  | [], _, _ => True
  | (a, f) :: rest, op, cache =>
    pushes cache a ∧ AllPush depth rest (f op) (push_snapshot op cache depth a)

/-- The entries the run pushes, in push order. -/
def snaps : List MutOp → ContourOp → List UndoEntry
  | [], _ => []
  | (a, f) :: rest, op => snapshot_entry op a :: snaps rest (f op)

/-- The net effect of the mutations alone. -/
def apply_ops : List MutOp → ContourOp → ContourOp
  | [], op => op
  | (_, f) :: rest, op => apply_ops rest (f op)

/-- Modelled from the spec: the Loop Normalizer resampling behind
`ContourCutLine.simplify_cross` (`contour_classes`, not in `src/`) places
`n` samples along the raw polyline; degenerate (empty) input yields nothing.
Arc-length parameterization involves square roots, so uniform sampling is
abstracted to uniform index sampling — the claims below use only the sample
count, never the sampled positions. -/
def resample (vs : List V3) (n : ℕ) : List V3 :=
  if vs.length = 0 then []
  else (List.range n).map (fun i => vs.getD (i * vs.length / n) default)

/-- Modelled from the spec: `ContourCutLine.simplify_cross(n)` resamples
`verts` into `n` simplified vertices. -/
def simplify_cross (c : Cut) (n : ℤ) : Cut :=
  { c with verts_simple := resample c.verts n.toNat }

/-- Modelled from the spec: `ContourCutLine.update_com` recomputes the
center of mass of the simplified vertices. -/
def update_com (c : Cut) : Cut :=
  { c with plane_com := centroid c.verts_simple }

/-- Modelled from the spec: cut selection flags (`do_select`/`deselect` on
`ContourCutLine`, presentation state). -/
def Cut.do_select (c : Cut) : Cut := { c with select := true }

/-- Modelled from the spec: clearing a cut's selection flag. -/
def Cut.deselect (c : Cut) : Cut := { c with select := false }

/-- Modelled from the spec: path selection flag (`ContourCutSeries.do_select`). -/
def Path.do_select (p : Path) : Path := { p with select := true }

/-- Modelled from the spec: clearing a path's selection flag. -/
def Path.deselect (p : Path) : Path := { p with select := false }

/-- Modelled from the spec: `ContourCutSeries.unhighlight` only resets a
display color, which is presentation state outside the data model. -/
def Path.unhighlight (p : Path) : Path := p

/-- Total edge length (squared per edge) of bridging ring `A` to ring `B`
with integer rotation offset `r` (Mesh Connector, spec §4.5). -/
def bridge_cost (A B : List V3) (r : ℕ) : ℚ :=
  ((List.range A.length).map
    (fun i => sqdist (A.getD i default) (B.getD ((i + r) % A.length) default))).sum

/-- Modelled from the spec: brute-force search of the rotation offset
minimizing the total squared edge length (spec §4.5). -/
def best_offset (A B : List V3) : ℕ :=
  (List.range A.length).foldl
    (fun best r => if bridge_cost A B r < bridge_cost A B best then r else best) 0

/-- Quads bridging consecutive rings `k` and `k+1`; a face is a list of
(cut index, vertex index) references (cyclic form of spec §4.5). -/
def bridge_pair (k : ℕ) (A B : List V3) : List (List (ℕ × ℕ)) :=
  let n := A.length
  let r := best_offset A B
  (List.range n).map (fun i =>
    [(k, i), (k, (i + 1) % n), (k + 1, (i + 1 + r) % n), (k + 1, (i + r) % n)])

/-- Bridge every consecutive pair of rings. -/
def bridge_all : ℕ → List (List V3) → List (List (ℕ × ℕ))
  | _, [] => []
  | _, [_] => []
  | k, A :: B :: rest => bridge_pair k A B ++ bridge_all (k + 1) (B :: rest)

/-- Modelled from the spec: `ContourCutSeries.connect_cuts_to_make_mesh`
(`contour_classes`, not in `src/`) recomputes the bridge faces from the
current cuts; it does not alter the cuts themselves. -/
def connect_cuts_to_make_mesh (p : Path) : Path :=
  { p with faces := bridge_all 0 (p.cuts.map (fun c => c.verts_simple)) }

/-- Modelled from the spec: `ContourCutSeries.update_visibility` performs a
per-vertex occlusion raycast (an external Surface Adapter query, abstracted
by the oracle `vis`) and stores the resulting masks; presentation state. -/
def update_visibility (vis : V3 → Bool) (p : Path) : Path :=
  { p with vis_mask := p.cuts.map (fun c => c.verts_simple.map vis) }

/-- Modelled from the spec: `ContourCutSeries.backbone_from_cuts` recomputes
each cut's plane normal as a smoothed tangent of the polyline through the
cut centroids (normalization, which needs a square root, is abstracted to
the unnormalized chord).  Shifts and vertex lists are untouched. -/
def backbone_from_cuts (p : Path) : Path :=
  let coms := p.cuts.map (fun c => c.plane_com)
  { p with
    cuts := (List.range p.cuts.length).map (fun i =>
      let c := p.cuts.getD i default
      { c with plane_no := vsub (coms.getD (i + 1) c.plane_com) (coms.getD (i - 1) c.plane_com) }) }

/-- Insert into a cut list at an ordinal position (Python `list.insert`:
positions past the end clamp to an append). -/
def insert_at (c : Cut) : ℕ → List Cut → List Cut
  | _, [] => [c]
  | 0, x :: xs => c :: x :: xs
  | i + 1, x :: xs => x :: insert_at c i xs

/-- Modelled from the spec: `ContourCutSeries.insert_new_cut`
(`contour_classes`, not in `src/`).  The geometric acceptance test
("within `search` × local average segment spacing ... of the centroid
line") and the resulting ordinal position depend on the external surface,
so they are abstracted by the oracle `dec`: `dec p = some i` accepts the cut
at position `i`, `dec p = none` rejects it, in which case the path is left
unchanged and the caller tries the next path.  A path with no cuts yet seeds
itself with the cut (`release_place_cut` at line 953 relies on this).  On
success `ring_segments` is re-derived from the cut when not locked. -/
def insert_new_cut (dec : Path → Option ℕ) (p : Path) (c : Cut) : Option Path :=
  match p.cuts, dec p with
  | [], _ => some { p with cuts := [c] }
  | _ :: _, some i =>
    some { p with
      cuts := insert_at c i p.cuts
      ring_segments :=
        if p.ring_lock then p.ring_segments else (c.verts_simple.length : ℤ) }
  | _ :: _, none => none

/-- The cut value as it stands at line 930 of `release_place_cut`: tail moved
to the release position (line 891), raw cut and simplification done (lines
912-913, with the plane/surface intersection supplied by the oracle
`cutVerts`), center of mass updated (line 914), screen head/tail cleared
(lines 916-917). -/
def placed_cut (sel0 : Cut) (mouse : Pt2) (cutVerts : List V3) (segments : ℤ) : Cut :=
  let sel1 : Cut := { sel0 with tail := some mouse }
  let sel2 := update_com (simplify_cross { sel1 with verts := cutVerts } segments)
  { sel2 with head := none, tail := none }

/-- The path updated in the successful branch of the insert loop
(lines 934-938): reconnect, update visibility, lock the segment count,
select and unhighlight. -/
def accepted_path (vis : V3 → Bool) (q : Path) : Path :=
  Path.do_select (Path.unhighlight
    { update_visibility vis (connect_cuts_to_make_mesh q) with seg_lock := true })

/-- The `for path in self.cut_paths` loop of `release_place_cut`
(lines 931-945): offer the cut to each path in order; on the first success
return the updated path list and the index of the accepting path. -/
def offer_to_paths (dec : Path → Option ℕ) (vis : V3 → Bool) (c : Cut) :
    List Path → Option (List Path × ℕ)
  | [] => none
  | p :: rest =>
    match insert_new_cut dec p c with
    | some q => some (accepted_path vis q :: rest, 0)
    | none => (offer_to_paths dec vis c rest).map (fun s => (p :: s.1, s.2 + 1))

/-- Deselect every path except the one at index `j`
(the loop at lines 941-943 / 960-961). -/
def deselect_others : ℕ → List Path → List Path
  | _, [] => []
  | 0, p :: rest => p :: rest.map Path.deselect
  | j + 1, p :: rest => p.deselect :: deselect_others j rest

/-- Replace the path at index `j`. -/
def modify_at (f : Path → Path) : ℕ → List Path → List Path
  | _, [] => []
  | 0, p :: rest => f p :: rest
  | j + 1, p :: rest => p :: modify_at f j rest

/-- The blank series created and seeded when no existing path accepts the
cut (lines 947-958): a fresh `ContourCutSeries`, `insert_new_cut` into it
(return value discarded, line 953), then `seg_lock = False`, `segments = 1`,
`ring_segments = len(verts_simple)`, reconnect and visibility. -/
def seeded_path (dec : Path → Option ℕ) (vis : V3 → Bool) (pc : Cut) : Path :=
  let path0 : Path := {}
  let path1 := match insert_new_cut dec path0 pc with
    | some q => q
    | none => path0
  let path2 : Path :=
    { path1 with
      seg_lock := false
      segments := 1
      ring_segments := (pc.verts_simple.length : ℤ) }
  update_visibility vis (connect_cuts_to_make_mesh path2)

/-- `release_place_cut` (lines 890-968).  `selIdx` is the index in
`cut_lines` of the cut line aliased by `self.selected` (Python removes it by
object identity; the index makes that removal and the in-place mutations
explicit).  `mouse` is the release position, `hit` the result of the VIEW
raycast `hit_object` (line 904), `cutVerts` the polyline produced by
`cut_object` (line 912), `dec` the `insert_new_cut` acceptance oracle and
`vis` the visibility oracle.  `none` models the `AttributeError` Python would
raise when `self.selected` or its head is absent. -/
def release_place_cut (op : ContourOp) (selIdx : ℕ) (mouse : Pt2) (hit : Bool)
    (cutVerts : List V3) (dec : Path → Option ℕ) (vis : V3 → Bool) :
    Option ContourOp :=
  match op.cut_lines.get? selIdx with
  | none => none
  | some sel0 =>
    match sel0.head with
    | none => none
    | some hd =>
      let sel1 : Cut := { sel0 with tail := some mouse }
      -- width = head - tail; `width.length < 20` compared via squares
      if (hd.1 - mouse.1) ^ 2 + (hd.2 - mouse.2) ^ 2 < 400 then
        -- "Placed cut is too short" (lines 897-901)
        some { op with
          cut_lines := (op.cut_lines.set selIdx sel1).eraseIdx selIdx
          selected := none }
      else if hit = false then
        -- "Placed cut did not hit the mesh" (lines 906-910)
        some { op with
          cut_lines := (op.cut_lines.set selIdx sel1).eraseIdx selIdx
          selected := none }
      else
        let sel3 := placed_cut sel0 mouse cutVerts op.segments
        if sel3.verts.length = 0 ∨ sel3.verts_simple.length = 0 then
          -- "cut failure" (lines 919-923): the cut line is not removed here
          some { op with
            cut_lines := op.cut_lines.set selIdx sel3
            selected := none }
        else
          let tryExisting :=
            if op.cut_paths ≠ [] ∧ op.force_new = false then
              offer_to_paths dec vis sel3 op.cut_paths
            else none
          match tryExisting with
          | some s =>
            -- a path accepted the cut (lines 932-945)
            some { op with
              cut_paths := deselect_others s.2 s.1
              selected_path := some s.2
              selected := some sel3
              cut_lines := (op.cut_lines.set selIdx sel3).eraseIdx selIdx }
          | none =>
            -- create a blank series and seed it (lines 947-968)
            some { op with
              cut_paths := op.cut_paths.map Path.deselect
                ++ [Path.do_select (seeded_path dec vis sel3)]
              selected_path := some op.cut_paths.length
              selected := some sel3
              cut_lines := (op.cut_lines.set selIdx sel3).eraseIdx selIdx
              force_new := false }

/-- `new_path_from_draw` (lines 833-873).  The construction of the
`ContourCutSeries` from the screen stroke and its whole geometric pipeline
(`ray_cast_path`, `find_knots`, `smooth_path`, `create_cut_nodes`,
`cuts_on_path`, `connect_cuts_to_make_mesh`, `backbone_from_cuts`,
`update_visibility`) live in `contour_classes` and depend on the external
Surface Adapter; they are abstracted by the oracles `raw_world` (the 3D
projection of the stroke produced by `ray_cast_path`) and `build` (the
finished path).  `mergeF` abstracts `snap_merge_into_other`.  Returns the
updated operator and the index of the path that `self.selected_path` is set
to (`none` when the raw path is empty, line 847-849). -/
def new_path_from_draw (op : ContourOp) (raw_world : List V3)
    (build : List V3 → Path) (mergeF : Path → ℕ → Path) :
    ContourOp × Option ℕ :=
  if raw_world.length = 0 then (op, none)
  else
    match op.snap, op.force_new with
    | some m, false =>
      ({ op with cut_paths := modify_at (fun p => mergeF p m.2) m.1 op.cut_paths },
       some m.1)
    | _, _ =>
      ({ op with cut_paths := op.cut_paths ++ [Path.do_select (build raw_world)] },
       some op.cut_paths.length)

/-- The guide-mode draw release handler (lines 1701-1723): with more than 10
recorded screen points, deselect every path and run `new_path_from_draw`
(selecting the produced path); in every case clear the draw cache and return
to the WAITING state. -/
def guide_draw_release (op : ContourOp) (raw_world : List V3)
    (build : List V3 → Path) (mergeF : Path → ℕ → Path) : ContourOp :=
  let op2 :=
    if 10 < op.draw_cache.length then
      let opd := { op with cut_paths := op.cut_paths.map Path.deselect }
      let r := new_path_from_draw opd raw_world build mergeF
      { r.1 with selected_path := r.2, force_new := false }
    else op
  { op2 with draw_cache := [], modal_state := "WAITING" }

/-- The RING_SEGMENTS wheel/numpad event handler of `modal`
(lines 1350-1383), acting on the selected path: when the path is not
ring-locked, step `ring_segments` by ±1, clamp it below at 3, rescale each
cut's `shift` by the ratio of new to old count and re-resample each cut to
the new count (lines 1354-1368), then recompute backbone, bridge faces and
visibility (lines 1370-1372); when the path is ring-locked only a header
message is shown and the path is untouched (lines 1376-1377). -/
def ring_segments_event (p : Path) (decrease : Bool) (vis : V3 → Bool) : Path :=
  if p.ring_lock = false then
    let old_segments := p.ring_segments
    let stepped := p.ring_segments + 1 - 2 * (if decrease then (1 : ℤ) else 0)
    let rs := if stepped < 3 then 3 else stepped
    let cuts' := p.cuts.map (fun cut =>
      let new_shift := (rs : ℚ) / (old_segments : ℚ) * cut.shift
      simplify_cross { cut with shift := new_shift } rs)
    update_visibility vis (connect_cuts_to_make_mesh
      (backbone_from_cuts { p with ring_segments := rs, cuts := cuts' }))
  else p

/-- Data content of a path: everything except the presentation-only
selection flag (spec §3 calls `select` "a select/highlight state for
presentation"). -/
def path_data (p : Path) : List Cut × ℤ × ℤ × Bool × Bool × List (List (ℕ × ℕ)) :=
  (p.cuts, p.segments, p.ring_segments, p.seg_lock, p.ring_lock, p.faces)

/-!
Heap model of `copy.deepcopy(self.cut_paths)` (line 1747).

Python objects live on a heap and are aliased by reference; the purpose of
the deep copy is that later in-place mutation of the live cut paths never
changes the copy stored in an undo entry.  The value-level embedding above
cannot even express aliasing, so this property gets an explicit store:
cut objects and path objects live at natural-number addresses, a path object
refers to its cuts by address, and `deepcopy` allocates fresh addresses
(at and above the current allocation counters) for every reachable object,
exactly as `copy.deepcopy` builds a fully fresh object graph. -/

/-- A path object on the heap: same fields as `Path`, but `cuts` holds the
addresses of the cut objects. -/
structure PathObj where
  cuts : List ℕ := []
  segments : ℤ := 0
  ring_segments : ℤ := 0
  seg_lock : Bool := false
  ring_lock : Bool := false
  select : Bool := false
  faces : List (List (ℕ × ℕ)) := []
  vis_mask : List (List Bool) := []
deriving DecidableEq, Repr, Inhabited

/-- The store: contents of every cut and path address, plus the allocation
counters (every address ever handed out is below its counter). -/
structure Heap where
  cutAt : ℕ → Cut
  pathAt : ℕ → PathObj
  nextCut : ℕ
  nextPath : ℕ

/-- In-place mutation of the cut object at address `a`. -/
def writeCut (h : Heap) (a : ℕ) (c : Cut) : Heap :=
  { h with cutAt := fun b => if b = a then c else h.cutAt b }

/-- In-place mutation of the path object at address `a`. -/
def writePath (h : Heap) (a : ℕ) (o : PathObj) : Heap :=
  { h with pathAt := fun b => if b = a then o else h.pathAt b }

/-- Dereference a path object into a structural `Path` value. -/
def readPath (h : Heap) (a : ℕ) : Path :=
  let o := h.pathAt a
  { cuts := o.cuts.map h.cutAt
    segments := o.segments
    ring_segments := o.ring_segments
    seg_lock := o.seg_lock
    ring_lock := o.ring_lock
    select := o.select
    faces := o.faces
    vis_mask := o.vis_mask }

/-- Dereference a whole cut-path list (the structural content compared by
the snapshot/undo claims). -/
def readGraph (h : Heap) (roots : List ℕ) : List Path :=
  roots.map (readPath h)

/-- Allocate a fresh cut object holding `c`. -/
def allocCut (h : Heap) (c : Cut) : Heap × ℕ :=
  ({ h with
      cutAt := fun b => if b = h.nextCut then c else h.cutAt b
      nextCut := h.nextCut + 1 },
   h.nextCut)

/-- Copy each listed cut object into a fresh address, in order. -/
def copyCuts (h : Heap) : List ℕ → Heap × List ℕ
  | [] => (h, [])
  | a :: rest =>
    let s := allocCut h (h.cutAt a)
    let t := copyCuts s.1 rest
    (t.1, s.2 :: t.2)

/-- Copy a path object: copy its cuts, then allocate a fresh path object
referring to the copies. -/
def copyPath (h : Heap) (a : ℕ) : Heap × ℕ :=
  let o := h.pathAt a
  let s := copyCuts h o.cuts
  ({ s.1 with
      pathAt := fun b => if b = s.1.nextPath then { o with cuts := s.2 } else s.1.pathAt b
      nextPath := s.1.nextPath + 1 },
   s.1.nextPath)

/-- `copy.deepcopy(self.cut_paths)` (line 1747): copy every path (and every
cut it owns) into fresh addresses and return the new root list. -/
def deepcopy_cut_paths (h : Heap) : List ℕ → Heap × List ℕ
  | [] => (h, [])
  | a :: rest =>
    let s := copyPath h a
    let t := deepcopy_cut_paths s.1 rest
    (t.1, s.2 :: t.2)

/-- Well-formed roots: every live path address and every cut address it
owns has already been allocated, i.e. everything reachable from the live
`cut_paths` sits below the allocation counters. -/
def wfRoots (h : Heap) (roots : List ℕ) : Prop :=
  ∀ a ∈ roots, a < h.nextPath ∧ ∀ c ∈ (h.pathAt a).cuts, c < h.nextCut

/-- A one-path, one-cut heap used by the concrete isolation scenario. -/
def c4_heap : Heap :=
  { cutAt := fun _ => {}
    pathAt := fun _ => { cuts := [0] }
    nextCut := 1
    nextPath := 1 }

/-- A sample path used by the concrete undo scenarios. -/
def c1_path : Path := { ring_segments := 3 }

/-- Two mutating operations with non-coalescible labels (the labels the
loop-mode handlers at lines 1287 and 1320 actually use). -/
def c1_mutations : List MutOp :=
  [("CUTTING", fun op => { op with cut_paths := [c1_path] }),
   ("DELETE", fun op => { op with cut_paths := [c1_path, c1_path] })]

/-- A single mutating operation with a non-coalescible label. -/
def c1_witness_mutations : List MutOp :=
  [("CUTTING", fun op => { op with cut_paths := [c1_path] })]

/-- A concrete unlocked path at the minimum ring count with one shifted
cut. -/
def c10_path : Path :=
  { ring_segments := 3
    cuts := [{ shift := 1/2, verts := [(0,0,0),(1,0,0),(0,1,0)] }] }

/-- A concrete cut line with its head placed at the origin. -/
def c7_cut : Cut := { head := some (0, 0) }

/-- A concrete operator holding one pending cut line and an empty guide
stroke. -/
def c7_op : ContourOp := { cut_lines := [c7_cut] }

/-- A concrete cut line for the new-path scenario. -/
def c8_cut : Cut := { head := some (0, 0) }

/-- A concrete operator with no paths yet and one pending cut line. -/
def c8_op : ContourOp := { cut_lines := [c8_cut], segments := 2 }

/-- The placed cut of the new-path scenario. -/
def c8_placed : Cut := placed_cut c8_cut (100, 0) [(0,0,0),(1,0,0)] c8_op.segments

/-- A concrete cut line for the first-acceptor scenario. -/
def c9_sel : Cut := { head := some (0, 0) }

/-- An existing path that will accept the placed cut at position 0. -/
def c9_path : Path := { cuts := [{}], ring_segments := 2 }

/-- A concrete operator with one existing path and one pending cut line. -/
def c9_op : ContourOp :=
  { cut_paths := [c9_path], cut_lines := [c9_sel], segments := 2 }

/-- The placed cut of the first-acceptor scenario. -/
def c9_placed : Cut := placed_cut c9_sel (100, 0) [(0,0,0),(1,0,0)] c9_op.segments

/-- An acceptance oracle that inserts at position 0. -/
def c9_dec : Path → Option ℕ := fun _ => some 0

/-- The path `c9_path` after `insert_new_cut` accepts `c9_placed`. -/
def c9_q : Path :=
  { c9_path with
    cuts := insert_at c9_placed 0 c9_path.cuts
    ring_segments := (c9_placed.verts_simple.length : ℤ) }

/-! ### Helper lemmas -/

/-- When the snapshot is not coalesced away (and cannot hit the empty-stack
lookup), `create_undo_snapshot` is exactly a push. -/
lemma create_undo_snapshot_of_pushes {cache : UndoCache} {action : String}
    (op : ContourOp) (depth : ℕ) (h : pushes cache action) :
    create_undo_snapshot op cache depth action =
      .ok (push_snapshot op cache depth action) := by
  unfold create_undo_snapshot
  by_cases hmem : action ∈ repeated_actions
  · obtain ⟨e, hl, hne⟩ := h hmem
    rw [if_pos hmem, hl]
    simp [hne]
  · rw [if_neg hmem]

/-- The push, with its eviction condition phrased on the input length. -/
lemma push_snapshot_eq {cache : UndoCache} {depth : ℕ}
    (op : ContourOp) (action : String) :
    push_snapshot op cache depth action =
      if depth < cache.length + 1 then (cache ++ [snapshot_entry op action]).tail
      else cache ++ [snapshot_entry op action] := by
  simp [push_snapshot]

/-- Length of a push: one more than before, unless the eviction fires. -/
lemma push_snapshot_length {cache : UndoCache} {depth : ℕ}
    (op : ContourOp) (action : String) :
    (push_snapshot op cache depth action).length =
      if depth < cache.length + 1 then cache.length else cache.length + 1 := by
  rw [push_snapshot_eq]
  split
  · simp [List.length_tail]
  · simp

/-- A push keeps the cache length within the configured depth. -/
lemma push_snapshot_length_le {cache : UndoCache} {depth : ℕ}
    (op : ContourOp) (action : String) (hlen : cache.length ≤ depth) :
    (push_snapshot op cache depth action).length ≤ depth := by
  rw [push_snapshot_length]
  split <;> omega

/-- `push_state` never touches `cut_paths` (it restores selection/mode only). -/
lemma push_state_cut_paths (s : ContourStatePreserver) (op : ContourOp) :
    (s.push_state op).cut_paths = op.cut_paths := rfl

/-- The run records one entry per operation. -/
lemma snaps_length : ∀ (ops : List MutOp) (op : ContourOp),
    (snaps ops op).length = ops.length
  | [], _ => rfl
  | (_, f) :: rest, op => by simp [snaps, snaps_length rest (f op)]

/-- Dropping the bottom element commutes with appending on the right. -/
lemma tail_append_singleton_append (xs : List UndoEntry) (e : UndoEntry)
    (ys : List UndoEntry) : (xs ++ [e]).tail ++ ys = (xs ++ e :: ys).tail := by
  cases xs <;> simp

/-- Shape of a run in which every snapshot pushes: the run succeeds, the
mutations accumulate, and the final cache is the initial cache followed by
the per-operation entries, with the overflow evicted from the bottom. -/
lemma run_ops_shape (depth : ℕ) (ops : List MutOp) :
    ∀ (op : ContourOp) (cache : UndoCache), cache.length ≤ depth →
      AllPush depth ops op cache →
      run_ops depth ops op cache =
        .ok (apply_ops ops op,
          (cache ++ snaps ops op).drop (cache.length + ops.length - depth)) := by
  induction ops with
  | nil =>
    intro op cache hlen _
    have h0 : cache.length - depth = 0 := by omega
    simp [run_ops, apply_ops, snaps, h0]
  | cons o rest ih =>
    intro op cache hlen hall
    obtain ⟨a, f⟩ := o
    obtain ⟨hp, hrest⟩ := hall
    have hlen' : (push_snapshot op cache depth a).length ≤ depth :=
      push_snapshot_length_le op a hlen
    simp only [run_ops, create_undo_snapshot_of_pushes op depth hp]
    rw [ih (f op) (push_snapshot op cache depth a) hlen' hrest]
    simp only [apply_ops, snaps, Except.ok.injEq, Prod.mk.injEq, true_and]
    by_cases hevict : depth < cache.length + 1
    · have h1 : push_snapshot op cache depth a =
          (cache ++ [snapshot_entry op a]).tail := by
        rw [push_snapshot_eq, if_pos hevict]
      have h2 : (push_snapshot op cache depth a).length = cache.length := by
        rw [push_snapshot_length, if_pos hevict]
      rw [h2, h1, tail_append_singleton_append, ← List.drop_one, List.drop_drop]
      congr 1
      simp only [List.length_cons]
      omega
    · have h1 : push_snapshot op cache depth a = cache ++ [snapshot_entry op a] := by
        rw [push_snapshot_eq, if_neg hevict]
      have h2 : (push_snapshot op cache depth a).length = cache.length + 1 := by
        rw [push_snapshot_length, if_neg hevict]
      rw [h2, h1, List.append_assoc, List.singleton_append]
      congr 1
      simp only [List.length_cons]
      omega

/-- Popping `k` entries stacked on top of `c` ends with the bottom entry's
stored `cut_paths` installed and `c` as the remaining cache. -/
lemma undo_iter_entries (entries : List UndoEntry) :
    ∀ (c : UndoCache) (op : ContourOp), entries ≠ [] →
      (undo_iter entries.length (op, c ++ entries)).1.cut_paths = entries.headI.1
      ∧ (undo_iter entries.length (op, c ++ entries)).2 = c := by
  induction entries using List.reverseRecOn with
  | nil => intro c op h; exact absurd rfl h
  | append_singleton ys y ih =>
    intro c op _
    have hstep : undo_action op (c ++ (ys ++ [y])) =
        (y.2.1.push_state { op with cut_paths := y.1 }, c ++ ys) := by
      unfold undo_action
      rw [← List.append_assoc, List.getLast?_concat, List.dropLast_concat]
    have hlen : (ys ++ [y]).length = ys.length + 1 := by simp
    rw [hlen]
    show (undo_iter ys.length (undo_action op (c ++ (ys ++ [y])))).1.cut_paths
        = (ys ++ [y]).headI.1
      ∧ (undo_iter ys.length (undo_action op (c ++ (ys ++ [y])))).2 = c
    rw [hstep]
    rcases eq_or_ne ys [] with hnil | hne
    · subst hnil
      simp only [List.length_nil, List.append_nil]
      exact ⟨rfl, rfl⟩
    · have h := ih c (y.2.1.push_state { op with cut_paths := y.1 }) hne
      have hhead : (ys ++ [y]).headI = ys.headI := by
        cases ys with
        | nil => exact absurd rfl hne
        | cons z zs => rfl
      rw [hhead]
      exact h

/-- Copying cuts never moves the path allocation counter. -/
lemma copyCuts_nextPath : ∀ (l : List ℕ) (h : Heap),
    (copyCuts h l).1.nextPath = h.nextPath
  | [], _ => rfl
  | _ :: rest, h => copyCuts_nextPath rest _

/-- Copying cuts never touches path objects. -/
lemma copyCuts_pathAt : ∀ (l : List ℕ) (h : Heap),
    (copyCuts h l).1.pathAt = h.pathAt
  | [], _ => rfl
  | _ :: rest, h => copyCuts_pathAt rest _

/-- Copying cuts only grows the cut allocation counter. -/
lemma copyCuts_nextCut_ge : ∀ (l : List ℕ) (h : Heap),
    h.nextCut ≤ (copyCuts h l).1.nextCut := by
  intro l
  induction l with
  | nil => intro h; exact le_refl _
  | cons a rest ih =>
    intro h
    simp only [copyCuts]
    exact le_trans (Nat.le_succ _) (ih (allocCut h (h.cutAt a)).1)

/-- Every cut address handed out by `copyCuts` is fresh: at or above the
incoming allocation counter. -/
lemma copyCuts_addrs_ge : ∀ (l : List ℕ) (h : Heap),
    ∀ b ∈ (copyCuts h l).2, h.nextCut ≤ b := by
  intro l
  induction l with
  | nil => intro h b hb; exact absurd hb (List.not_mem_nil b)
  | cons a rest ih =>
    intro h b hb
    rcases List.mem_cons.mp hb with hb | hb
    · subst hb; exact le_refl _
    · exact le_trans (Nat.le_succ _) (ih _ b hb)

/-- `copyPath` bumps the path counter by one. -/
lemma copyPath_nextPath (h : Heap) (a : ℕ) :
    (copyPath h a).1.nextPath = h.nextPath + 1 := by
  unfold copyPath
  simp [copyCuts_nextPath]

/-- The address handed out by `copyPath` is the incoming path counter. -/
lemma copyPath_addr (h : Heap) (a : ℕ) : (copyPath h a).2 = h.nextPath := by
  unfold copyPath
  simp [copyCuts_nextPath]

/-- `copyPath` only grows the cut counter. -/
lemma copyPath_nextCut_ge (h : Heap) (a : ℕ) :
    h.nextCut ≤ (copyPath h a).1.nextCut := by
  unfold copyPath
  simpa using copyCuts_nextCut_ge (h.pathAt a).cuts h

/-- `copyPath` leaves every previously allocated path object in place. -/
lemma copyPath_pathAt_lt (h : Heap) (a q : ℕ) (hq : q < h.nextPath) :
    (copyPath h a).1.pathAt q = h.pathAt q := by
  unfold copyPath
  have h1 : (copyCuts h (h.pathAt a).cuts).1.nextPath = h.nextPath :=
    copyCuts_nextPath _ _
  have h2 : (copyCuts h (h.pathAt a).cuts).1.pathAt = h.pathAt :=
    copyCuts_pathAt _ _
  simp only [h1, h2]
  rw [if_neg (by omega)]

/-- The path object stored by `copyPath` refers exactly to the fresh cut
copies. -/
lemma copyPath_new_obj (h : Heap) (a : ℕ) :
    (copyPath h a).1.pathAt ((copyPath h a).2) =
      { h.pathAt a with cuts := (copyCuts h (h.pathAt a).cuts).2 } := by
  unfold copyPath
  simp

/-- The deep copy only grows the path counter. -/
lemma deepcopy_nextPath_ge : ∀ (l : List ℕ) (h : Heap),
    h.nextPath ≤ (deepcopy_cut_paths h l).1.nextPath
  | [], _ => le_refl _
  | a :: rest, h => by
    have h1 := deepcopy_nextPath_ge rest (copyPath h a).1
    rw [copyPath_nextPath] at h1
    exact le_trans (Nat.le_succ _) h1

/-- The deep copy only grows the cut counter. -/
lemma deepcopy_nextCut_ge : ∀ (l : List ℕ) (h : Heap),
    h.nextCut ≤ (deepcopy_cut_paths h l).1.nextCut
  | [], _ => le_refl _
  | a :: rest, h =>
    le_trans (copyPath_nextCut_ge h a) (deepcopy_nextCut_ge rest (copyPath h a).1)

/-- The deep copy leaves every previously allocated path object in place. -/
lemma deepcopy_pathAt_lt : ∀ (l : List ℕ) (h : Heap) (q : ℕ), q < h.nextPath →
    (deepcopy_cut_paths h l).1.pathAt q = h.pathAt q
  | [], _, _, _ => rfl
  | a :: rest, h, q, hq => by
    have h1 : q < (copyPath h a).1.nextPath := by
      rw [copyPath_nextPath]; omega
    simp only [deepcopy_cut_paths]
    rw [deepcopy_pathAt_lt rest (copyPath h a).1 q h1, copyPath_pathAt_lt h a q hq]

/-- Every root returned by the deep copy is a fresh path address, and the
cut addresses its stored object refers to are fresh as well: the copy is
disjoint from everything allocated before the snapshot. -/
lemma deepcopy_fresh : ∀ (l : List ℕ) (h : Heap),
    ∀ p ∈ (deepcopy_cut_paths h l).2,
      h.nextPath ≤ p
      ∧ ∀ c ∈ ((deepcopy_cut_paths h l).1.pathAt p).cuts, h.nextCut ≤ c := by
  intro l
  induction l with
  | nil => intro h p hp; exact absurd hp (List.not_mem_nil p)
  | cons a rest ih =>
    intro h p hp
    simp only [deepcopy_cut_paths] at hp ⊢
    rcases List.mem_cons.mp hp with hp | hp
    · subst hp
      constructor
      · rw [copyPath_addr]
      · intro c hc
        have hlt : (copyPath h a).2 < (copyPath h a).1.nextPath := by
          rw [copyPath_addr, copyPath_nextPath]; omega
        rw [deepcopy_pathAt_lt rest (copyPath h a).1 _ hlt] at hc
        rw [copyPath_new_obj] at hc
        exact copyCuts_addrs_ge _ h c hc
    · have h1 := ih (copyPath h a).1 p hp
      constructor
      · have := h1.1
        rw [copyPath_nextPath] at this
        omega
      · intro c hc
        exact le_trans (copyPath_nextCut_ge h a) (h1.2 c hc)

/-- Indexed reading of a whole list is the list itself. -/
lemma map_getD_range {α β : Type} (l : List α) (f : α → β) (d : α) :
    ((List.range l.length).map fun i => f (l.getD i d)) = l.map f := by
  induction l with
  | nil => rfl
  | cons x xs ih =>
    rw [List.length_cons, List.range_succ_eq_map]
    simp only [List.map_cons, List.map_map]
    refine congrArg₂ _ rfl ?_
    exact ih

/-- Resampling a non-degenerate polyline yields exactly the requested
number of samples. -/
lemma length_resample (vs : List V3) (n : ℕ) (h : vs ≠ []) :
    (resample vs n).length = n := by
  unfold resample
  rw [if_neg (by simpa using h)]
  simp

/-- `backbone_from_cuts` only rewrites plane normals: every per-cut
projection other than `plane_no` is untouched. -/
lemma backbone_from_cuts_proj {β : Type} (p : Path) (f : Cut → β)
    (hf : ∀ (c : Cut) (v : V3), f { c with plane_no := v } = f c) :
    (backbone_from_cuts p).cuts.map f = p.cuts.map f := by
  unfold backbone_from_cuts
  simp only [List.map_map]
  rw [← map_getD_range p.cuts f default]
  apply List.map_congr_left
  intro i _
  exact hf _ _

/-- `backbone_from_cuts` preserves `ring_segments`. -/
lemma backbone_from_cuts_ring (p : Path) :
    (backbone_from_cuts p).ring_segments = p.ring_segments := rfl

/-- `connect_cuts_to_make_mesh` preserves the cuts. -/
lemma connect_cuts_cuts (p : Path) :
    (connect_cuts_to_make_mesh p).cuts = p.cuts := rfl

/-- `connect_cuts_to_make_mesh` preserves `ring_segments`. -/
lemma connect_cuts_ring (p : Path) :
    (connect_cuts_to_make_mesh p).ring_segments = p.ring_segments := rfl

/-- `update_visibility` preserves the cuts. -/
lemma update_visibility_cuts (vis : V3 → Bool) (p : Path) :
    (update_visibility vis p).cuts = p.cuts := rfl

/-- `update_visibility` preserves `ring_segments`. -/
lemma update_visibility_ring (vis : V3 → Bool) (p : Path) :
    (update_visibility vis p).ring_segments = p.ring_segments := rfl

/-- The new ring-segment count chosen by the RING_SEGMENTS handler:
step by ±1, clamp below at 3 (lines 1356-1358). -/
def ring_target (p : Path) (decrease : Bool) : ℤ :=
  if p.ring_segments + 1 - 2 * (if decrease then (1 : ℤ) else 0) < 3 then 3
  else p.ring_segments + 1 - 2 * (if decrease then (1 : ℤ) else 0)

/-- Characterization of the unlocked RING_SEGMENTS event: the new count is
`ring_target`, every shift is rescaled by new/old, and every cut is
re-resampled to the new count. -/
lemma ring_segments_event_unlocked (p : Path) (decrease : Bool)
    (vis : V3 → Bool) (hlock : p.ring_lock = false) :
    (ring_segments_event p decrease vis).ring_segments = ring_target p decrease
    ∧ (ring_segments_event p decrease vis).cuts.map (fun c => c.shift)
        = p.cuts.map (fun c =>
            (ring_target p decrease : ℚ) / (p.ring_segments : ℚ) * c.shift)
    ∧ (ring_segments_event p decrease vis).cuts.map (fun c => c.verts_simple)
        = p.cuts.map (fun c => resample c.verts (ring_target p decrease).toNat) := by
  unfold ring_segments_event
  rw [hlock]
  simp only [eq_self_iff_true, if_true]
  refine ⟨rfl, ?_, ?_⟩
  · rw [update_visibility_cuts, connect_cuts_cuts]
    rw [backbone_from_cuts_proj _ (fun c => c.shift) (fun _ _ => rfl)]
    simp only [List.map_map]
    rfl
  · rw [update_visibility_cuts, connect_cuts_cuts]
    rw [backbone_from_cuts_proj _ (fun c => c.verts_simple) (fun _ _ => rfl)]
    simp only [List.map_map]
    rfl

/-- Mutating a list cell in place and then removing that same cell is the
same as removing the original cell. -/
lemma set_eraseIdx {α : Type} : ∀ (l : List α) (i : ℕ) (x : α),
    (l.set i x).eraseIdx i = l.eraseIdx i
  | [], _, _ => rfl
  | _ :: _, 0, _ => rfl
  | y :: ys, i + 1, x => by
    simp only [List.set, List.eraseIdx]
    rw [set_eraseIdx ys i x]

/-- If every path rejects the cut, the offer loop finds no home for it. -/
lemma offer_to_paths_none (dec : Path → Option ℕ) (vis : V3 → Bool) (c : Cut) :
    ∀ paths : List Path, (∀ p ∈ paths, insert_new_cut dec p c = none) →
      offer_to_paths dec vis c paths = none := by
  intro paths
  induction paths with
  | nil => intro _; rfl
  | cons p rest ih =>
    intro h
    unfold offer_to_paths
    rw [h p (List.mem_cons_self p rest), ih fun r hr => h r (List.mem_cons_of_mem p hr)]
    rfl

/-- The offer loop stops at the first path that accepts the cut: every path
before it is left as it is, the acceptor is replaced by its updated version,
and every path after it is never offered the cut. -/
lemma offer_to_paths_first (dec : Path → Option ℕ) (vis : V3 → Bool) (c : Cut) :
    ∀ (pre : List Path) (p : Path) (post : List Path) (q : Path),
      (∀ r ∈ pre, insert_new_cut dec r c = none) →
      insert_new_cut dec p c = some q →
      offer_to_paths dec vis c (pre ++ p :: post) =
        some (pre ++ accepted_path vis q :: post, pre.length) := by
  intro pre
  induction pre with
  | nil =>
    intro p post q _ hp
    simp only [List.nil_append, offer_to_paths, hp, List.length_nil]
  | cons r rest ih =>
    intro p post q hpre hp
    have hr : insert_new_cut dec r c = none := hpre r (List.mem_cons_self r rest)
    simp only [List.cons_append, offer_to_paths, hr, List.append_eq]
    rw [ih p post q (fun s hs => hpre s (List.mem_cons_of_mem r hs)) hp]
    simp

/-- Deselection is presentation-only: the recorded path data survives. -/
lemma path_data_deselect (p : Path) : path_data p.deselect = path_data p := rfl

/-- `deselect_others` preserves every path's cuts. -/
lemma deselect_others_cuts (j : ℕ) (l : List Path) :
    (deselect_others j l).map (fun t => t.cuts) = l.map (fun t => t.cuts) := by
  induction l generalizing j with
  | nil => cases j <;> rfl
  | cons p rest ih =>
    cases j with
    | zero =>
      simp only [deselect_others, List.map_cons, List.map_map]
      rfl
    | succ j =>
      simp only [deselect_others, List.map_cons]
      rw [ih j]
      rfl

/-- Reading at the length of the prefix lands on the middle element. -/
lemma getD_append_cons : ∀ (pre : List Path) (x : Path) (post : List Path),
    (pre ++ x :: post).getD pre.length default = x
  | [], _, _ => rfl
  | _ :: rest, x, post => getD_append_cons rest x post

/-- `deselect_others` keeps the path at the selected index untouched. -/
lemma deselect_others_getD_self (j : ℕ) (l : List Path) (h : j < l.length) :
    (deselect_others j l).getD j default = l.getD j default := by
  induction l generalizing j with
  | nil => exact absurd h (by simp)
  | cons p rest ih =>
    cases j with
    | zero => rfl
    | succ j =>
      simp only [deselect_others, List.getD_cons_succ]
      exact ih j (by simpa using h)

/-! ### Claim theorems -/

/-- Claim C4: after the snapshot's `copy.deepcopy(self.cut_paths)`
(line 1747), mutating any path object of the live graph, or any cut object
a live path refers to, never changes the structural content read from the
copied roots: the copy's object graph is disjoint from every address
reachable from the live `cut_paths`. -/
theorem snapshot_copy_isolation (h : Heap) (roots : List ℕ)
    (hwf : wfRoots h roots) (p : ℕ) (hp : p ∈ roots) :
    (∀ o : PathObj,
      readGraph (writePath (deepcopy_cut_paths h roots).1 p o)
          (deepcopy_cut_paths h roots).2
        = readGraph (deepcopy_cut_paths h roots).1 (deepcopy_cut_paths h roots).2)
    ∧ ∀ c ∈ (h.pathAt p).cuts, ∀ cd : Cut,
      readGraph (writeCut (deepcopy_cut_paths h roots).1 c cd)
          (deepcopy_cut_paths h roots).2
        = readGraph (deepcopy_cut_paths h roots).1 (deepcopy_cut_paths h roots).2 := by
  have hfresh := deepcopy_fresh roots h
  have hplt : p < h.nextPath := (hwf p hp).1
  constructor
  · intro o
    unfold readGraph
    apply List.map_congr_left
    intro q hq
    have hne : q ≠ p := by
      have := (hfresh q hq).1
      omega
    simp [readPath, writePath, hne]
  · intro c hc cd
    have hclt : c < h.nextCut := (hwf p hp).2 c hc
    unfold readGraph
    apply List.map_congr_left
    intro q hq
    have hcuts := (hfresh q hq).2
    simp only [readPath, writeCut]
    congr 1
    apply List.map_congr_left
    intro b hb
    have hbc : b ≠ c := by
      have := hcuts b hb
      omega
    simp [hbc]

/-- Witness for claim C4: on a concrete one-path heap, overwriting the live
path object or the live cut object leaves the copied graph's content
untouched. -/
theorem snapshot_copy_isolation_witness :
    readGraph (writePath (deepcopy_cut_paths c4_heap [0]).1 0 {})
        (deepcopy_cut_paths c4_heap [0]).2
      = readGraph (deepcopy_cut_paths c4_heap [0]).1 (deepcopy_cut_paths c4_heap [0]).2
    ∧ readGraph (writeCut (deepcopy_cut_paths c4_heap [0]).1 0 { shift := 1 })
        (deepcopy_cut_paths c4_heap [0]).2
      = readGraph (deepcopy_cut_paths c4_heap [0]).1 (deepcopy_cut_paths c4_heap [0]).2 := by
  have h := snapshot_copy_isolation c4_heap [0] (by unfold wfRoots; decide) 0 (by decide)
  exact ⟨h.1 {}, h.2 0 (by decide) { shift := 1 }⟩

/-- Claim C1, counterexample.  With `undo_depth = 1` and two mutating
operations, each preceded by a snapshot whose (non-coalescible) label pushes
an entry, the second push evicts the first snapshot, so applying
`undo_action` twice ends at the state one — not two — operations prior: the
run starts from empty `cut_paths`, and after two undos `cut_paths` is
`[c1_path]`, not `[]`. -/
theorem undo_restores_counterexample :
    (run_ops 1 c1_mutations {} []).toOption.map
      (fun r => (undo_iter 2 r).1.cut_paths) = some [c1_path]
    ∧ [c1_path] ≠ ({} : ContourOp).cut_paths := by
  refine ⟨by decide, by decide⟩

/-- Claim C1, amended: for any sequence of `k` mutating operations, each
preceded by a `create_undo_snapshot` whose label is not coalesced with the
previous snapshot, and provided the initial undo stack respects the depth
bound and `k` does not exceed the configured `undo_depth` (beyond which the
bounded stack evicts the very snapshots that would be needed), applying
`undo_action` `k` times restores `cut_paths` to its state exactly `k`
operations prior, by structural equality of the stored paths. -/
theorem undo_restores_k_states (ops : List MutOp) (op0 : ContourOp)
    (cache0 : UndoCache) (depth : ℕ) (hc : cache0.length ≤ depth)
    (hk : ops.length ≤ depth) (hall : AllPush depth ops op0 cache0) :
    (run_ops depth ops op0 cache0).toOption.map
      (fun r => (undo_iter ops.length r).1.cut_paths) = some op0.cut_paths := by
  rw [run_ops_shape depth ops op0 cache0 hc hall]
  simp only [Except.toOption, Option.map_some, Option.some.injEq]
  cases ops with
  | nil => rfl
  | cons o rest =>
    obtain ⟨a, f⟩ := o
    have hD : cache0.length + ((a, f) :: rest).length - depth ≤ cache0.length := by
      simp only [List.length_cons] at *
      omega
    rw [List.drop_append_of_le_length hD]
    have hne : snaps ((a, f) :: rest) op0 ≠ [] := by
      simp [snaps]
    have h := (undo_iter_entries (snaps ((a, f) :: rest) op0)
      (cache0.drop (cache0.length + ((a, f) :: rest).length - depth))
      (apply_ops ((a, f) :: rest) op0) hne).1
    rw [snaps_length] at h
    simp only [Option.map_some']
    rw [h]
    rfl

/-- Witness for the amended claim C1: one snapshot-preceded mutation at
depth 1 starting from an empty cache; one undo restores the empty
`cut_paths`. -/
theorem undo_restores_k_states_witness :
    (run_ops 1 c1_witness_mutations {} []).toOption.map
      (fun r => (undo_iter 1 r).1.cut_paths) = some [] := by
  have hall : AllPush 1 c1_witness_mutations {} [] :=
    ⟨fun hmem => absurd hmem (by decide), trivial⟩
  exact undo_restores_k_states c1_witness_mutations {} [] 1
    (by decide) (by decide) hall

/-- Claim C2 (refuted; code bug evidence).  The claim states that
`create_undo_snapshot` completes without error for every undo-stack state and
every action label, as the spec asserts ("The Snapshot Manager never itself
fails except on an empty-stack undo").  The code instead reads
`contour_undo_cache[-1]` (line 1742) with no emptiness guard when the action
is coalescible, so on an empty undo cache `create_undo_snapshot(op, 'LOOP_SHIFT')`
raises `IndexError` for every operator state and configured depth. -/
theorem create_undo_snapshot_not_total (op : ContourOp) (depth : ℕ) :
    create_undo_snapshot op [] depth "LOOP_SHIFT" =
      Except.error "IndexError: list index out of range" := by
  rfl

/-- Claim C3, counterexample.  The claim asserts that in every case other
than "non-empty stack whose top entry carries the same coalescible label" the
call pushes an entry; with an empty stack and the coalescible label
`'LOOP_SHIFT'` the call does not push (it raises `IndexError` instead). -/
theorem create_undo_snapshot_push_case_fails_on_empty :
    create_undo_snapshot {} [] 10 "LOOP_SHIFT" ≠
      Except.ok (push_snapshot {} [] 10 "LOOP_SHIFT") := by
  intro h
  have h' : (Except.error "IndexError: list index out of range" : Except String UndoCache) =
      Except.ok (push_snapshot {} [] 10 "LOOP_SHIFT") := h
  exact Except.noConfusion h'

/-- Claim C3, amended: for a coalescible action label, a non-empty stack
whose top entry carries the same label makes `create_undo_snapshot` leave the
stack unchanged; when the label is not coalescible, or the top entry of a
non-empty stack carries a different label, the call pushes the entry
`(cut_paths, operator state, label)` (evicting the bottom entry past the
configured depth); with an empty stack and a coalescible label the call
fails with `IndexError` instead of pushing. -/
theorem create_undo_snapshot_cases (op : ContourOp) (cache : UndoCache)
    (depth : ℕ) (action : String) :
    (∀ e, action ∈ repeated_actions → cache.getLast? = some e → action = e.2.2 →
      create_undo_snapshot op cache depth action = .ok cache)
    ∧ ((action ∉ repeated_actions ∨ ∃ e, cache.getLast? = some e ∧ action ≠ e.2.2) →
      create_undo_snapshot op cache depth action =
        .ok (push_snapshot op cache depth action))
    ∧ (action ∈ repeated_actions → cache = [] →
      create_undo_snapshot op cache depth action =
        .error "IndexError: list index out of range") := by
  refine ⟨?_, ?_, ?_⟩
  · intro e hmem hl he
    unfold create_undo_snapshot
    rw [if_pos hmem, hl]
    simp [he]
  · intro h
    apply create_undo_snapshot_of_pushes
    intro hmem
    rcases h with h | h
    · exact absurd hmem h
    · exact h
  · intro hmem hnil
    subst hnil
    unfold create_undo_snapshot
    rw [if_pos hmem]
    rfl

/-- Witness for the amended claim C3: both non-error cases realized on
concrete stacks. -/
theorem create_undo_snapshot_cases_witness :
    create_undo_snapshot {} [snapshot_entry {} "LOOP_SHIFT"] 10 "LOOP_SHIFT" =
      .ok [snapshot_entry {} "LOOP_SHIFT"]
    ∧ create_undo_snapshot {} [] 10 "DELETE" = .ok (push_snapshot {} [] 10 "DELETE")
    ∧ create_undo_snapshot {} [] 10 "LOOP_SHIFT" =
      .error "IndexError: list index out of range" := by
  refine ⟨?_, ?_, ?_⟩
  · exact (create_undo_snapshot_cases {} [snapshot_entry {} "LOOP_SHIFT"] 10
      "LOOP_SHIFT").1 (snapshot_entry {} "LOOP_SHIFT") (by decide) (by rfl) (by rfl)
  · exact (create_undo_snapshot_cases {} [] 10 "DELETE").2.1 (Or.inl (by decide))
  · exact (create_undo_snapshot_cases {} [] 10 "LOOP_SHIFT").2.2 (by decide) rfl

/-- Claim C6: starting from an undo cache within the configured depth, every
`create_undo_snapshot` call that actually pushes an entry leaves the cache
with at most `undo_depth` entries, and when the push would exceed the depth
the bottom (oldest) entry of the appended stack is evicted. -/
theorem snapshot_depth_bound (op : ContourOp) (cache : UndoCache) (depth : ℕ)
    (action : String) (hlen : cache.length ≤ depth) (hpush : pushes cache action) :
    create_undo_snapshot op cache depth action =
      .ok (push_snapshot op cache depth action)
    ∧ (push_snapshot op cache depth action).length ≤ depth
    ∧ (depth < cache.length + 1 →
        push_snapshot op cache depth action =
          (cache ++ [snapshot_entry op action]).tail) := by
  refine ⟨create_undo_snapshot_of_pushes op depth hpush,
    push_snapshot_length_le op action hlen, ?_⟩
  intro hd
  rw [push_snapshot_eq, if_pos hd]

/-- Witness for claim C6: a full cache of depth 1 stays at one entry and the
old bottom entry is the one evicted. -/
theorem snapshot_depth_bound_witness :
    create_undo_snapshot {} [snapshot_entry {} "DELETE"] 1 "CUTTING" =
      .ok (push_snapshot {} [snapshot_entry {} "DELETE"] 1 "CUTTING")
    ∧ (push_snapshot {} [snapshot_entry {} "DELETE"] 1 "CUTTING").length ≤ 1
    ∧ push_snapshot {} [snapshot_entry {} "DELETE"] 1 "CUTTING" =
      ([snapshot_entry {} "DELETE"] ++ [snapshot_entry {} "CUTTING"]).tail := by
  have h := snapshot_depth_bound {} [snapshot_entry {} "DELETE"] 1 "CUTTING"
    (by decide) (fun hmem => absurd hmem (by decide))
  exact ⟨h.1, h.2.1, h.2.2 (by decide)⟩

/-- Claim C5: on a ring-locked path the RING_SEGMENTS wheel/numpad event is
refused: `ring_segments`, every cut's `shift` and every cut's vertex lists
are left unchanged (the handler only shows a "Path Locked" message,
lines 1376-1377). -/
theorem ring_locked_event_refused (p : Path) (decrease : Bool)
    (vis : V3 → Bool) (hlock : p.ring_lock = true) :
    (ring_segments_event p decrease vis).ring_segments = p.ring_segments
    ∧ (ring_segments_event p decrease vis).cuts.map (fun c => c.shift)
        = p.cuts.map (fun c => c.shift)
    ∧ (ring_segments_event p decrease vis).cuts.map (fun c => c.verts_simple)
        = p.cuts.map (fun c => c.verts_simple)
    ∧ (ring_segments_event p decrease vis).cuts.map (fun c => c.verts)
        = p.cuts.map (fun c => c.verts) := by
  have h : ring_segments_event p decrease vis = p := by
    unfold ring_segments_event
    rw [hlock]
    rfl
  rw [h]
  exact ⟨rfl, rfl, rfl, rfl⟩

/-- Witness for claim C5: a concrete locked path with one shifted cut is
untouched by a decrease request. -/
theorem ring_locked_event_refused_witness :
    (ring_segments_event
        { ring_lock := true, ring_segments := 4
          cuts := [{ shift := 1/2, verts := [(0,0,0),(1,0,0)],
                     verts_simple := [(0,0,0),(1,0,0)] }] }
        true (fun _ => true)).ring_segments = (4 : ℤ)
    ∧ (ring_segments_event
        { ring_lock := true, ring_segments := 4
          cuts := [{ shift := 1/2, verts := [(0,0,0),(1,0,0)],
                     verts_simple := [(0,0,0),(1,0,0)] }] }
        true (fun _ => true)).cuts.map (fun c => c.shift) = [1/2] := by
  have h := ring_locked_event_refused
    { ring_lock := true, ring_segments := 4
      cuts := [{ shift := 1/2, verts := [(0,0,0),(1,0,0)],
                 verts_simple := [(0,0,0),(1,0,0)] }] }
    true (fun _ => true) rfl
  exact ⟨h.1, h.2.1⟩

/-- Claim C10: for an unlocked selected path (with the standing invariants
that its count is at least 3 and its cuts have non-degenerate raw
polylines), after any RING_SEGMENTS change event the count is at least 3; a
decrease requested at count 3 leaves it at 3; every cut's shift is rescaled
by the ratio of new to old count; and every cut is re-resampled to the new
count. -/
theorem ring_segments_min_three (p : Path) (decrease : Bool) (vis : V3 → Bool)
    (hlock : p.ring_lock = false) (h3 : 3 ≤ p.ring_segments)
    (hverts : ∀ c ∈ p.cuts, c.verts ≠ []) :
    3 ≤ (ring_segments_event p decrease vis).ring_segments
    ∧ (decrease = true → p.ring_segments = 3 →
        (ring_segments_event p decrease vis).ring_segments = 3)
    ∧ (ring_segments_event p decrease vis).cuts.map (fun c => c.shift)
        = p.cuts.map (fun c =>
            ((ring_segments_event p decrease vis).ring_segments : ℚ)
              / (p.ring_segments : ℚ) * c.shift)
    ∧ ∀ c ∈ (ring_segments_event p decrease vis).cuts,
        c.verts_simple.length
          = (ring_segments_event p decrease vis).ring_segments.toNat := by
  obtain ⟨hring, hshift, hsimple⟩ :=
    ring_segments_event_unlocked p decrease vis hlock
  have htarget : 3 ≤ ring_target p decrease := by
    unfold ring_target
    split <;> omega
  refine ⟨by rw [hring]; exact htarget, ?_, by rw [hring]; exact hshift, ?_⟩
  · intro hdec hp3
    rw [hring]
    unfold ring_target
    rw [hdec, hp3]
    norm_num
  · intro c hc
    have hmem : c.verts_simple
        ∈ (ring_segments_event p decrease vis).cuts.map (fun c => c.verts_simple) :=
      List.mem_map_of_mem _ hc
    rw [hsimple] at hmem
    obtain ⟨c0, hc0, heq⟩ := List.mem_map.mp hmem
    rw [hring, ← heq]
    exact length_resample c0.verts _ (hverts c0 hc0)

/-- Witness for claim C10: a concrete unlocked path at count 3, decreased,
stays at 3, keeps its rescaled shift and is resampled to 3 vertices. -/
theorem ring_segments_min_three_witness :
    3 ≤ (ring_segments_event c10_path true (fun _ => true)).ring_segments
    ∧ ((true : Bool) = true → c10_path.ring_segments = 3 →
        (ring_segments_event c10_path true (fun _ => true)).ring_segments = 3)
    ∧ (ring_segments_event c10_path true (fun _ => true)).cuts.map (fun c => c.shift)
      = c10_path.cuts.map (fun c =>
          ((ring_segments_event c10_path true (fun _ => true)).ring_segments : ℚ)
            / (c10_path.ring_segments : ℚ) * c.shift)
    ∧ ∀ c ∈ (ring_segments_event c10_path true (fun _ => true)).cuts,
        c.verts_simple.length
          = (ring_segments_event c10_path true (fun _ => true)).ring_segments.toNat := by
  exact ring_segments_min_three c10_path true (fun _ => true) rfl (by decide)
    (by intro c hc; simp [c10_path] at hc; subst hc; simp)

/-- Claim C7: a stroke that is too short (loop mode: head-to-tail screen
width under the 20-pixel minimum; guide mode: at most 10 recorded screen
points) or entirely off-surface (the view raycast hits nothing; the guide
stroke's `ray_cast_path` projection is empty) creates no Path: `cut_paths`
keeps its data and the attempted cut line (resp. draw stroke) is
discarded. -/
theorem input_error_creates_no_path (op : ContourOp) (selIdx : ℕ) (sel0 : Cut)
    (hd mouse : Pt2) (hit : Bool) (cutVerts : List V3) (dec : Path → Option ℕ)
    (vis : V3 → Bool) (raw_world : List V3) (build : List V3 → Path)
    (mergeF : Path → ℕ → Path) :
    (op.cut_lines.get? selIdx = some sel0 → sel0.head = some hd →
      ((hd.1 - mouse.1) ^ 2 + (hd.2 - mouse.2) ^ 2 < 400 ∨ hit = false) →
      (release_place_cut op selIdx mouse hit cutVerts dec vis).map
          (fun r => (r.cut_paths, r.cut_lines))
        = some (op.cut_paths, op.cut_lines.eraseIdx selIdx))
    ∧ (op.draw_cache.length ≤ 10 →
        (guide_draw_release op raw_world build mergeF).cut_paths = op.cut_paths
        ∧ (guide_draw_release op raw_world build mergeF).draw_cache = [])
    ∧ (raw_world = [] →
        (guide_draw_release op raw_world build mergeF).cut_paths.map path_data
          = op.cut_paths.map path_data
        ∧ (guide_draw_release op raw_world build mergeF).draw_cache = []) := by
  refine ⟨?_, ?_, ?_⟩
  · intro hsel hhd hcase
    simp only [release_place_cut, hsel, hhd]
    by_cases hw : (hd.1 - mouse.1) ^ 2 + (hd.2 - mouse.2) ^ 2 < 400
    · rw [if_pos hw]
      simp only [Option.map_some', set_eraseIdx]
    · rcases hcase with hw' | hhit
      · exact absurd hw' hw
      · rw [if_neg hw, hhit]
        simp only [eq_self_iff_true, if_true, Option.map_some', set_eraseIdx]
  · intro hle
    unfold guide_draw_release
    rw [if_neg (by omega)]
    exact ⟨rfl, rfl⟩
  · intro hraw
    subst hraw
    simp only [guide_draw_release, new_path_from_draw, List.length_nil,
      eq_self_iff_true, if_true]
    by_cases hlen : 10 < op.draw_cache.length
    · rw [if_pos hlen]
      refine ⟨?_, trivial⟩
      show (op.cut_paths.map Path.deselect).map path_data
        = op.cut_paths.map path_data
      simp only [List.map_map]
      apply List.map_congr_left
      intro t _
      rfl
    · rw [if_neg hlen]
      exact ⟨rfl, trivial⟩

/-- Witness for claim C7: a 1.4-pixel-wide cut line is rejected and removed,
and an empty guide stroke (0 recorded points) leaves `cut_paths` alone. -/
theorem input_error_creates_no_path_witness :
    (release_place_cut c7_op 0 (1, 1) true [] (fun _ => none) (fun _ => true)).map
        (fun r => (r.cut_paths, r.cut_lines))
      = some (c7_op.cut_paths, c7_op.cut_lines.eraseIdx 0)
    ∧ (guide_draw_release c7_op [] (fun _ => {}) (fun p _ => p)).cut_paths
        = c7_op.cut_paths
    ∧ (guide_draw_release c7_op [] (fun _ => {}) (fun p _ => p)).draw_cache = [] := by
  have h := input_error_creates_no_path c7_op 0 c7_cut (0, 0) (1, 1) true []
    (fun _ => none) (fun _ => true) [] (fun _ => {}) (fun p _ => p)
  refine ⟨h.1 rfl rfl (Or.inl (by norm_num)), ?_, ?_⟩
  · exact (h.2.1 (by decide)).1
  · exact (h.2.1 (by decide)).2

/-- Claim C8: when every existing path's `insert_new_cut` rejects the placed
cut (in particular when there are no paths), `release_place_cut` appends
exactly one new Path holding that cut, with `segments = 1`,
`ring_segments` equal to the cut's simplified vertex count and
`seg_lock = false`; no existing path's cuts change. -/
theorem release_place_cut_new_path (op : ContourOp) (selIdx : ℕ) (sel0 : Cut)
    (hd mouse : Pt2) (cutVerts : List V3) (dec : Path → Option ℕ) (vis : V3 → Bool)
    (hsel : op.cut_lines.get? selIdx = some sel0)
    (hhd : sel0.head = some hd)
    (hwidth : ¬ ((hd.1 - mouse.1) ^ 2 + (hd.2 - mouse.2) ^ 2 < 400))
    (hverts : (placed_cut sel0 mouse cutVerts op.segments).verts.length ≠ 0)
    (hsimple : (placed_cut sel0 mouse cutVerts op.segments).verts_simple.length ≠ 0)
    (hfail : ∀ r ∈ op.cut_paths,
      insert_new_cut dec r (placed_cut sel0 mouse cutVerts op.segments) = none) :
    (release_place_cut op selIdx mouse true cutVerts dec vis).map
        (fun r => (r.cut_paths, r.selected_path, r.cut_lines))
      = some (op.cut_paths.map Path.deselect
            ++ [Path.do_select
                (seeded_path dec vis (placed_cut sel0 mouse cutVerts op.segments))],
          some op.cut_paths.length, op.cut_lines.eraseIdx selIdx)
    ∧ (Path.do_select
        (seeded_path dec vis (placed_cut sel0 mouse cutVerts op.segments))).cuts
      = [placed_cut sel0 mouse cutVerts op.segments]
    ∧ (Path.do_select
        (seeded_path dec vis (placed_cut sel0 mouse cutVerts op.segments))).segments = 1
    ∧ (Path.do_select
        (seeded_path dec vis (placed_cut sel0 mouse cutVerts op.segments))).ring_segments
      = ((placed_cut sel0 mouse cutVerts op.segments).verts_simple.length : ℤ)
    ∧ (Path.do_select
        (seeded_path dec vis (placed_cut sel0 mouse cutVerts op.segments))).seg_lock
      = false
    ∧ (op.cut_paths.map Path.deselect).map (fun t => t.cuts)
      = op.cut_paths.map (fun t => t.cuts) := by
  refine ⟨?_, rfl, rfl, rfl, rfl, ?_⟩
  · simp only [release_place_cut, hsel, hhd]
    rw [if_neg hwidth, if_neg (by simp), if_neg ((not_or).mpr ⟨hverts, hsimple⟩)]
    have hoffer : (if op.cut_paths ≠ [] ∧ op.force_new = false then
        offer_to_paths dec vis (placed_cut sel0 mouse cutVerts op.segments) op.cut_paths
        else none) = none := by
      split
      · exact offer_to_paths_none dec vis _ op.cut_paths hfail
      · rfl
    rw [hoffer]
    simp only [Option.map_some', set_eraseIdx]
  · simp only [List.map_map]
    apply List.map_congr_left
    intro p _
    rfl

/-- Witness for claim C8: with no path yet, a 100-pixel cut that hits the
surface seeds one new path holding the placed cut. -/
theorem release_place_cut_new_path_witness :
    (release_place_cut c8_op 0 (100, 0) true [(0,0,0),(1,0,0)]
        (fun _ => none) (fun _ => true)).map
        (fun r => (r.cut_paths, r.selected_path, r.cut_lines))
      = some ([Path.do_select (seeded_path (fun _ => none) (fun _ => true) c8_placed)],
          some 0, [])
    ∧ (Path.do_select (seeded_path (fun _ => none) (fun _ => true) c8_placed)).cuts
      = [c8_placed]
    ∧ (Path.do_select (seeded_path (fun _ => none) (fun _ => true) c8_placed)).segments = 1
    ∧ (Path.do_select (seeded_path (fun _ => none) (fun _ => true) c8_placed)).ring_segments
      = (c8_placed.verts_simple.length : ℤ)
    ∧ (Path.do_select (seeded_path (fun _ => none) (fun _ => true) c8_placed)).seg_lock
      = false := by
  have h := release_place_cut_new_path c8_op 0 c8_cut (0, 0) (100, 0)
    [(0,0,0),(1,0,0)] (fun _ => none) (fun _ => true) rfl rfl (by norm_num)
    (by decide) (by decide) (fun r hr => absurd hr (by simp [c8_op]))
  exact ⟨h.1, h.2.1, h.2.2.1, h.2.2.2.1, h.2.2.2.2.1⟩

/-- Claim C9: with existing paths, `force_new` off and at least one path
accepting the placed cut, the cut goes into exactly the first accepting
path in `cut_paths` order: that path is updated (its `seg_lock` set, it is
selected, it becomes `selected_path`) and every other path's cuts are left
as they were — no later path is offered the cut. -/
theorem release_place_cut_first_acceptor (op : ContourOp) (selIdx : ℕ)
    (sel0 : Cut) (hd mouse : Pt2) (cutVerts : List V3) (dec : Path → Option ℕ)
    (vis : V3 → Bool) (pre post : List Path) (p q : Path)
    (hsel : op.cut_lines.get? selIdx = some sel0)
    (hhd : sel0.head = some hd)
    (hwidth : ¬ ((hd.1 - mouse.1) ^ 2 + (hd.2 - mouse.2) ^ 2 < 400))
    (hverts : (placed_cut sel0 mouse cutVerts op.segments).verts.length ≠ 0)
    (hsimple : (placed_cut sel0 mouse cutVerts op.segments).verts_simple.length ≠ 0)
    (hpaths : op.cut_paths = pre ++ p :: post)
    (hforce : op.force_new = false)
    (hpre : ∀ r ∈ pre,
      insert_new_cut dec r (placed_cut sel0 mouse cutVerts op.segments) = none)
    (hp : insert_new_cut dec p (placed_cut sel0 mouse cutVerts op.segments) = some q) :
    (release_place_cut op selIdx mouse true cutVerts dec vis).map
        (fun r => (r.cut_paths, r.selected_path, r.cut_lines))
      = some (deselect_others pre.length (pre ++ accepted_path vis q :: post),
          some pre.length, op.cut_lines.eraseIdx selIdx)
    ∧ (deselect_others pre.length (pre ++ accepted_path vis q :: post)).map
        (fun t => t.cuts)
      = pre.map (fun t => t.cuts) ++ q.cuts :: post.map (fun t => t.cuts)
    ∧ (deselect_others pre.length (pre ++ accepted_path vis q :: post)).getD
        pre.length default = accepted_path vis q
    ∧ (accepted_path vis q).seg_lock = true
    ∧ (accepted_path vis q).select = true
    ∧ (accepted_path vis q).cuts = q.cuts := by
  refine ⟨?_, ?_, ?_, rfl, rfl, rfl⟩
  · simp only [release_place_cut, hsel, hhd]
    rw [if_neg hwidth, if_neg (by simp), if_neg ((not_or).mpr ⟨hverts, hsimple⟩)]
    have hoffer : (if op.cut_paths ≠ [] ∧ op.force_new = false then
        offer_to_paths dec vis (placed_cut sel0 mouse cutVerts op.segments) op.cut_paths
        else none)
        = some (pre ++ accepted_path vis q :: post, pre.length) := by
      rw [if_pos ⟨by rw [hpaths]; simp, hforce⟩, hpaths]
      exact offer_to_paths_first dec vis _ pre p post q hpre hp
    rw [hoffer]
    simp only [Option.map_some', set_eraseIdx]
  · rw [deselect_others_cuts]
    simp only [List.map_append, List.map_cons]
    rfl
  · rw [deselect_others_getD_self _ _ (by simp), getD_append_cons]

/-- Witness for claim C9: the single existing path accepts the placed cut at
position 0, gets locked and selected, and its updated cut list is exactly
the insertion result. -/
theorem release_place_cut_first_acceptor_witness :
    (release_place_cut c9_op 0 (100, 0) true [(0,0,0),(1,0,0)] c9_dec
        (fun _ => true)).map
        (fun r => (r.cut_paths, r.selected_path, r.cut_lines))
      = some ([accepted_path (fun _ => true) c9_q], some 0, [])
    ∧ [accepted_path (fun _ => true) c9_q].map (fun t => t.cuts) = [c9_q.cuts]
    ∧ (accepted_path (fun _ => true) c9_q).seg_lock = true
    ∧ (accepted_path (fun _ => true) c9_q).select = true := by
  have h := release_place_cut_first_acceptor c9_op 0 c9_sel (0, 0) (100, 0)
    [(0,0,0),(1,0,0)] c9_dec (fun _ => true) [] [] c9_path c9_q rfl rfl
    (by norm_num) (by decide) (by decide) rfl rfl
    (fun r hr => absurd hr (by simp)) (by rfl)
  exact ⟨h.1, h.2.1, h.2.2.2.1, h.2.2.2.2.1⟩

end Contours
